import Mathlib

/-!
# Design-pattern examples: Singleton and Factory Method

A shallow embedding of `src/singleton.cpp` and `src/factory_method.cpp`.

* Standard output is a `String`; `cout << v` appends the text of `v`.
* A C++ `int` is an `Int`: the programs do no arithmetic on their fields, so no
  overflow can occur and every statement below holds for all integers.
* A reference or pointer is the address of the object it is bound to.
* Each program has its own namespace, since both define `getInstance` and `main`.
-/

namespace SingletonProgram

/-! ## `singleton.cpp`: data model -/

/-- The address of an object: what a `Singleton&` is bound to and what `&obj` yields. -/
abbrev Handle := Nat

/-- The data members of `class Singleton`: `int x, y;`. -/
structure Singleton where
  x : Int
  y : Int
deriving DecidableEq, Repr

/-- The state of one running process of `singleton.cpp`.

* `addr` is the address of the function-local `static Singleton instance`;
* `constructed` is the guard of that static local: whether its initialisation has run;
* `inst` is the content of the storage of `instance` (before the constructor has run
  it is whatever the storage holds; the model leaves that content arbitrary);
* `constructions` counts how many times the body of `Singleton()` has run
  (a ghost counter, used only to state "constructed exactly once");
* `out` is the text written to standard output so far. -/
structure Proc where
  addr : Handle
  constructed : Bool
  inst : Singleton
  constructions : Nat
  out : String
deriving DecidableEq, Repr

/-- A process before `main` has run: nothing constructed, nothing printed. -/
def Proc.start (addr : Handle) (mem : Singleton) : Proc :=
  { addr := addr, constructed := false, inst := mem, constructions := 0, out := "" }

/-! ## `class Singleton` -/

/-- The default constructor `Singleton() {}` run on storage `mem`: the body is empty,
so neither field is assigned. -/
def Singleton.defaultCtor (mem : Singleton) : Singleton := mem

/-- The method `void setValue(int x, int y)`: `this->x = x; this->y = y;`. -/
def Singleton.setValue (_self : Singleton) (x y : Int) : Singleton :=
  { x := x, y := y }

/-- The method `void printValue()`:
`cout << this->x << ' ' << this->y << '\n';`, as the new content of standard output. -/
def Singleton.printValue (self : Singleton) (out : String) : String :=
  (((out ++ toString self.x).push ' ') ++ toString self.y).push '\n'

/-- The static accessor `Singleton& Singleton::getInstance()`:
`static Singleton instance; return instance;`.
The static local is initialised the first time control passes through its declaration
(guard `constructed`); every call returns a reference to that one object. -/
def Singleton.getInstance (p : Proc) : Handle × Proc :=
  if p.constructed then
    (p.addr, p)
  else
    (p.addr, { p with constructed := true
                      inst := Singleton.defaultCtor p.inst
                      constructions := p.constructions + 1 })

/-! ## Calls through a reference -/

/-- The object a reference is bound to: the only `Singleton` object of the process is
the static `instance`, alive once it has been constructed. -/
def Proc.deref (p : Proc) (h : Handle) : Option Singleton :=
  if h = p.addr ∧ p.constructed = true then some p.inst else none

/-- The call `h.setValue(x, y)` through the reference `h`. -/
def callSetValue (h : Handle) (x y : Int) (p : Proc) : Option Proc :=
  match p.deref h with
  | some obj => some { p with inst := obj.setValue x y }
  | none => none

/-- The call `h.printValue()` through the reference `h`. -/
def callPrintValue (h : Handle) (p : Proc) : Option Proc :=
  match p.deref h with
  | some obj => some { p with out := obj.printValue p.out }
  | none => none

/-! ## `main` -/

/-- The function `int main()` of `singleton.cpp`, returning the exit code and the final
state. `fmtPtr` is the implementation-defined text that `cout << &obj` prints for an
address. -/
def main (fmtPtr : Handle → String) (p : Proc) : Option (Int × Proc) :=
  match Singleton.getInstance p with
  | (obj, p1) =>
    (callSetValue obj 4 3 p1).bind fun p2 =>
    (callPrintValue obj p2).bind fun p3 =>
    match Singleton.getInstance p3 with
    | (obj2, p4) =>
      (callSetValue obj2 1 2 p4).bind fun p5 =>
      (callPrintValue obj2 p5).bind fun p6 =>
      some (0, { p6 with out := (((p6.out ++ fmtPtr obj).push '\n') ++ fmtPtr obj2).push '\n' })

/-! ## Client programs

An arbitrary client of the class is a sequence of calls. Each `getInstance()` result
is kept in a fresh reference variable; `setValue` and `printValue` are called through
any reference obtained so far, named by its position. -/

/-- One call made by a client. -/
inductive Op where
  | getInstance
  | setValue (h : Nat) (x y : Int)
  | printValue (h : Nat)
deriving DecidableEq, Repr

/-- Whether a call is a `setValue`. -/
def Op.isSetValue : Op → Bool
  | .setValue _ _ _ => true
  | _ => false

/-- A client in mid-run: the process and the references obtained so far, in order. -/
structure Client where
  proc : Proc
  handles : List Handle
deriving DecidableEq, Repr

/-- A client that has not called anything yet. -/
def Client.start (addr : Handle) (mem : Singleton) : Client :=
  { proc := Proc.start addr mem, handles := [] }

/-- Every reference a client holds is bound to the static instance, which is alive. -/
def Inv (c : Client) : Prop :=
  ∀ h ∈ c.handles, h = c.proc.addr ∧ c.proc.constructed = true

/-- One call. A call through a reference variable that does not exist is not a
program (`none`). -/
def step (c : Client) : Op → Option Client
  | .getInstance =>
    match Singleton.getInstance c.proc with
    | (h, p) => some { proc := p, handles := c.handles ++ [h] }
  | .setValue i x y =>
    match c.handles[i]? with
    | some h => (callSetValue h x y c.proc).map fun p => { c with proc := p }
    | none => none
  | .printValue i =>
    match c.handles[i]? with
    | some h => (callPrintValue h c.proc).map fun p => { c with proc := p }
    | none => none

/-- A sequence of calls, in order. -/
def run (c : Client) : List Op → Option Client
  | [] => some c
  | op :: ops => (step c op).bind fun c1 => run c1 ops

/-- A call sequence is well formed when every call goes through a reference variable
that exists at that point; `n` is the number of references obtained so far. -/
def wellFormed (n : Nat) : List Op → Bool
  | [] => true
  | .getInstance :: ops => wellFormed (n + 1) ops
  | .setValue i _ _ :: ops => decide (i < n) && wellFormed n ops
  | .printValue i :: ops => decide (i < n) && wellFormed n ops

end SingletonProgram

namespace FactoryProgram

/-! ## `factory_method.cpp` -/

/-- The abstract class `Transport`: one pure virtual method `deliver`, given by its
effect on standard output. An object of the class carries no data, so it is its
table of virtual methods. -/
structure Transport where
  deliver : String → String

/-- The class `Ship`, whose `deliver` is `cout << "delivering using ship";`. -/
def Ship : Transport where
  deliver out := out ++ "delivering using ship"

/-- A pointer `Transport*`: the position of the object among those allocated. -/
abbrev Ptr := Nat

/-- The state of one running process of `factory_method.cpp`: the objects allocated
with `new` (never freed by the program) and the text written to standard output. -/
structure World where
  heap : List Transport
  out : String

/-- A process before `main` has run. -/
def World.start : World := { heap := [], out := "" }

/-- The expression `new T()`: allocates the object, returns its address. The store is
unbounded, so allocation succeeds. -/
def World.new (w : World) (obj : Transport) : Ptr × World :=
  (w.heap.length, { w with heap := w.heap ++ [obj] })

/-- The abstract class `TransportFactory`: one pure virtual method `getInstance`. -/
structure TransportFactory where
  getInstance : World → Ptr × World

/-- The class `ShipFactory`, whose `getInstance` is `return new Ship();`. -/
def ShipFactory : TransportFactory where
  getInstance w := w.new Ship

/-- The virtual call `p->deliver()`: dispatches on the dynamic type of the object at `p`. -/
def callDeliver (p : Ptr) (w : World) : Option World :=
  match w.heap[p]? with
  | some obj => some { w with out := obj.deliver w.out }
  | none => none

/-- The function `int main()` of `factory_method.cpp`, returning the exit code and the
final state. -/
def main (w : World) : Option (Int × World) :=
  let shipFactory := ShipFactory
  match shipFactory.getInstance w with
  | (ship, w1) =>
    (callDeliver ship w1).bind fun w2 =>
    some (0, w2)

/-! ## Client programs -/

/-- One call made by a client of the factory: `shipFactory.getInstance()`, kept in a
fresh pointer variable, or `deliver()` through a pointer obtained so far. -/
inductive Op where
  | getInstance
  | deliver (i : Nat)
deriving DecidableEq, Repr

/-- Whether a call is a `deliver`. -/
def Op.isDeliver : Op → Bool
  | .deliver _ => true
  | .getInstance => false

/-- A client in mid-run: the process and the pointers obtained so far, in order. -/
structure Client where
  world : World
  ptrs : List Ptr

/-- Every pointer a client holds points to a `Ship` object. -/
def PtrsOk (c : Client) : Prop :=
  ∀ p ∈ c.ptrs, c.world.heap[p]? = some Ship

/-- A client that has not called anything yet, in a process in state `w`. -/
def Client.start (w : World) : Client :=
  { world := w, ptrs := [] }

/-- One call. A call through a pointer variable that does not exist is not a
program (`none`). -/
def step (c : Client) : Op → Option Client
  | .getInstance =>
    match ShipFactory.getInstance c.world with
    | (p, w) => some { world := w, ptrs := c.ptrs ++ [p] }
  | .deliver i =>
    match c.ptrs[i]? with
    | some p => (callDeliver p c.world).map fun w => { c with world := w }
    | none => none

/-- A sequence of calls, in order. -/
def run (c : Client) : List Op → Option Client
  | [] => some c
  | op :: ops => (step c op).bind fun c1 => run c1 ops

/-- A call sequence is well formed when every `deliver` goes through a pointer variable
that exists at that point; `n` is the number of pointers obtained so far. -/
def wellFormed (n : Nat) : List Op → Bool
  | [] => true
  | .getInstance :: ops => wellFormed (n + 1) ops
  | .deliver i :: ops => decide (i < n) && wellFormed n ops

/-- The client that obtains one `Ship` and calls `deliver()` on it `n` times. -/
def oneShip (n : Nat) : List Op :=
  Op.getInstance :: List.replicate n (Op.deliver 0)

/-- The client that `n` times obtains a new `Ship` and calls `deliver()` on it; `k` is
the number of pointers obtained before. -/
def shipsFrom (k : Nat) : Nat → List Op
  | 0 => []
  | n + 1 => Op.getInstance :: Op.deliver k :: shipsFrom (k + 1) n

end FactoryProgram

namespace SingletonProgram

/-! ## Lemmas on `class Singleton` -/

theorem Singleton.printValue_eq (s : Singleton) (out : String) :
    s.printValue out = out ++ (toString s.x ++ " " ++ toString s.y ++ "\n") := by
  apply String.ext
  simp [Singleton.printValue, String.data_push, String.data_append]

theorem Singleton.getInstance_fst (p : Proc) : (Singleton.getInstance p).1 = p.addr := by
  unfold Singleton.getInstance
  split <;> rfl

theorem Singleton.getInstance_addr (p : Proc) :
    (Singleton.getInstance p).2.addr = p.addr := by
  unfold Singleton.getInstance
  split <;> rfl

theorem Singleton.getInstance_constructed (p : Proc) :
    (Singleton.getInstance p).2.constructed = true := by
  unfold Singleton.getInstance
  split
  · assumption
  · rfl

theorem Singleton.getInstance_inst (p : Proc) :
    (Singleton.getInstance p).2.inst = p.inst := by
  unfold Singleton.getInstance
  split <;> rfl

theorem Singleton.getInstance_out (p : Proc) :
    (Singleton.getInstance p).2.out = p.out := by
  unfold Singleton.getInstance
  split <;> rfl

theorem Singleton.getInstance_constructions (p : Proc) :
    (Singleton.getInstance p).2.constructions
      = p.constructions + (if p.constructed = false then 1 else 0) := by
  unfold Singleton.getInstance
  cases h : p.constructed <;> simp

theorem Singleton.getInstance_of_constructed (p : Proc) (h : p.constructed = true) :
    Singleton.getInstance p = (p.addr, p) := by
  simp [Singleton.getInstance, h]

/-! ## Lemmas on client programs -/

theorem Inv_start (addr : Handle) (mem : Singleton) : Inv (Client.start addr mem) := by
  intro h hh
  simp [Client.start] at hh

theorem deref_of_Inv {c : Client} (hc : Inv c) {i : Nat} {h : Handle}
    (hi : c.handles[i]? = some h) : c.proc.deref h = some c.proc.inst := by
  have hm : h ∈ c.handles := List.getElem?_mem hi
  obtain ⟨h1, h2⟩ := hc h hm
  simp [Proc.deref, h1, h2]

theorem step_getInstance (c : Client) :
    step c Op.getInstance
      = some { proc := (Singleton.getInstance c.proc).2, handles := c.handles ++ [c.proc.addr] } := by
  simp [step, Singleton.getInstance_fst]

theorem step_setValue {c : Client} (hc : Inv c) {i : Nat} (hi : i < c.handles.length)
    (x y : Int) :
    step c (Op.setValue i x y)
      = some { c with proc := { c.proc with inst := { x := x, y := y } } } := by
  have hg : c.handles[i]? = some c.handles[i] := List.getElem?_eq_getElem hi
  simp [step, hg, callSetValue, deref_of_Inv hc hg, Singleton.setValue]

theorem step_printValue {c : Client} (hc : Inv c) {i : Nat} (hi : i < c.handles.length) :
    step c (Op.printValue i)
      = some { c with proc := { c.proc with
                out := c.proc.out
                  ++ (toString c.proc.inst.x ++ " " ++ toString c.proc.inst.y ++ "\n") } } := by
  have hg : c.handles[i]? = some c.handles[i] := List.getElem?_eq_getElem hi
  simp [step, hg, callPrintValue, deref_of_Inv hc hg, Singleton.printValue_eq]

theorem Inv_step_getInstance {c : Client} (_hc : Inv c) :
    Inv { proc := (Singleton.getInstance c.proc).2, handles := c.handles ++ [c.proc.addr] } := by
  intro h hh
  simp only [List.mem_append, List.mem_singleton] at hh
  refine ⟨?_, Singleton.getInstance_constructed _⟩
  rw [Singleton.getInstance_addr]
  rcases hh with hh | hh
  · exact (_hc h hh).1
  · exact hh

/-- What a well-formed call sequence does to a client whose references are all bound to
the live static instance: it runs to the end, and the final state is as listed. -/
theorem run_spec (ops : List Op) :
    ∀ c : Client, Inv c → wellFormed c.handles.length ops = true →
      ∃ c1, run c ops = some c1 ∧ Inv c1 ∧
        c1.proc.addr = c.proc.addr ∧
        c1.handles = c.handles ++ List.replicate (ops.count Op.getInstance) c.proc.addr ∧
        c1.proc.constructed = (c.proc.constructed || decide (Op.getInstance ∈ ops)) ∧
        c1.proc.constructions
          = c.proc.constructions
            + (if c.proc.constructed = false ∧ Op.getInstance ∈ ops then 1 else 0) ∧
        ((∀ op ∈ ops, op.isSetValue = false) → c1.proc.inst = c.proc.inst) := by
  induction ops with
  | nil =>
    intro c hc _
    exact ⟨c, rfl, hc, rfl, by simp, by simp, by simp, fun _ => rfl⟩
  | cons op ops ih =>
    intro c hc hwf
    cases op with
    | getInstance =>
      have hwf1 : wellFormed (c.handles.length + 1) ops = true := by
        simpa [wellFormed] using hwf
      obtain ⟨c1, hrun, hinv, haddr, hh, hcon, hcnt, hinst⟩ :=
        ih { proc := (Singleton.getInstance c.proc).2, handles := c.handles ++ [c.proc.addr] }
          (Inv_step_getInstance hc) (by simpa using hwf1)
      refine ⟨c1, ?_, hinv, ?_, ?_, ?_, ?_, ?_⟩
      · simp [run, step_getInstance, hrun]
      · rw [haddr, Singleton.getInstance_addr]
      · rw [hh]
        simp [Singleton.getInstance_addr, List.replicate_succ]
      · rw [hcon]
        simp [Singleton.getInstance_constructed]
      · rw [hcnt]
        simp [Singleton.getInstance_constructed, Singleton.getInstance_constructions]
      · intro hno
        rw [hinst (fun op hop => hno op (List.mem_cons_of_mem _ hop))]
        exact Singleton.getInstance_inst _
    | setValue i x y =>
      have hwf1 : i < c.handles.length ∧ wellFormed c.handles.length ops = true := by
        simpa [wellFormed] using hwf
      have hinv1 : Inv { c with proc := { c.proc with inst := { x := x, y := y } } } := hc
      obtain ⟨c1, hrun, hinv, haddr, hh, hcon, hcnt, _⟩ := ih _ hinv1 hwf1.2
      refine ⟨c1, ?_, hinv, haddr, ?_, ?_, ?_, ?_⟩
      · simp [run, step_setValue hc hwf1.1, hrun]
      · simpa using hh
      · simpa using hcon
      · simpa using hcnt
      · intro hno
        have := hno (Op.setValue i x y) (List.mem_cons_self _ _)
        simp [Op.isSetValue] at this
    | printValue i =>
      have hwf1 : i < c.handles.length ∧ wellFormed c.handles.length ops = true := by
        simpa [wellFormed] using hwf
      have hinv1 : Inv { c with proc := { c.proc with
          out := c.proc.out
            ++ (toString c.proc.inst.x ++ " " ++ toString c.proc.inst.y ++ "\n") } } := hc
      obtain ⟨c1, hrun, hinv, haddr, hh, hcon, hcnt, hinst⟩ := ih _ hinv1 hwf1.2
      refine ⟨c1, ?_, hinv, haddr, ?_, ?_, ?_, ?_⟩
      · simp [run, step_printValue hc hwf1.1, hrun]
      · simpa using hh
      · simpa using hcon
      · simpa using hcnt
      · intro hno
        exact hinst (fun op hop => hno op (List.mem_cons_of_mem _ hop))

theorem run_append (l1 l2 : List Op) :
    ∀ c : Client, run c (l1 ++ l2) = (run c l1).bind fun c1 => run c1 l2 := by
  induction l1 with
  | nil => intro c; rfl
  | cons op l1 ih =>
    intro c
    simp only [List.cons_append, run]
    cases step c op with
    | none => rfl
    | some c1 => simpa using ih c1

theorem wellFormed_append (l1 l2 : List Op) :
    ∀ n : Nat, wellFormed n (l1 ++ l2)
      = (wellFormed n l1 && wellFormed (n + l1.count Op.getInstance) l2) := by
  induction l1 with
  | nil => intro n; simp [wellFormed]
  | cons op l1 ih =>
    intro n
    cases op with
    | getInstance =>
      have e : n + 1 + List.count Op.getInstance l1 = n + (List.count Op.getInstance l1 + 1) := by
        omega
      rw [List.count_cons_self, ← e]
      exact ih (n + 1)
    | setValue i x y =>
      simp [wellFormed, ih, List.count_cons, Bool.and_assoc]
    | printValue i =>
      simp [wellFormed, ih, List.count_cons, Bool.and_assoc]

/-- Only well-formed call sequences run to the end: well-formedness excludes no run. -/
theorem wellFormed_of_run (ops : List Op) :
    ∀ c c1 : Client, run c ops = some c1 → wellFormed c.handles.length ops = true := by
  induction ops with
  | nil => intro c c1 _; rfl
  | cons op ops ih =>
    intro c c1 h
    simp only [run] at h
    cases hs : step c op with
    | none => simp [hs] at h
    | some c2 =>
      rw [hs] at h
      have h2 := ih c2 c1 h
      cases op with
      | getInstance =>
        rw [step_getInstance] at hs
        cases hs
        simpa [wellFormed] using h2
      | setValue i x y =>
        cases hg : c.handles[i]? with
        | none => simp [step, hg] at hs
        | some hd =>
          have hi : i < c.handles.length := (List.getElem?_eq_some.mp hg).1
          simp only [step, hg, Option.map_eq_some'] at hs
          obtain ⟨p, _, hp⟩ := hs
          subst hp
          simpa [wellFormed, hi] using h2
      | printValue i =>
        cases hg : c.handles[i]? with
        | none => simp [step, hg] at hs
        | some hd =>
          have hi : i < c.handles.length := (List.getElem?_eq_some.mp hg).1
          simp only [step, hg, Option.map_eq_some'] at hs
          obtain ⟨p, _, hp⟩ := hs
          subst hp
          simpa [wellFormed, hi] using h2

theorem main_out_eq (t : String) :
    ((("" ++ ("4" ++ " " ++ "3" ++ "\n") ++ ("1" ++ " " ++ "2" ++ "\n") ++ t).push '\n') ++ t).push '\n'
      = String.join (List.map (fun l => l ++ "\n") ["4 3", "1 2", t, t]) := by
  apply String.ext
  simp [String.data_push, String.data_append, String.join]

/-! ## The claims on `singleton.cpp` -/

/-- C1 (Singleton uniqueness). Every well-formed sequence of calls on a fresh process,
with any number of `getInstance()` calls interleaved with any `setValue`/`printValue`
calls, runs to the end; it has obtained one handle for each `getInstance()` call, and
every two of the handles obtained are equal (all are the address of the one static
instance). -/
theorem singleton_uniqueness (addr : Handle) (mem : Singleton) (ops : List Op)
    (hwf : wellFormed 0 ops = true) :
    ∃ c, run (Client.start addr mem) ops = some c ∧
      c.handles.length = ops.count Op.getInstance ∧
      (∀ h1 ∈ c.handles, ∀ h2 ∈ c.handles, h1 = h2) ∧
      (∀ h ∈ c.handles, h = addr) := by
  obtain ⟨c, hrun, hinv, haddr, hh, _⟩ :=
    run_spec ops (Client.start addr mem) (Inv_start addr mem) hwf
  have hall : ∀ h ∈ c.handles, h = addr := by
    intro h hm
    have := (hinv h hm).1
    rw [this, haddr]
    rfl
  refine ⟨c, hrun, ?_, ?_, hall⟩
  · rw [hh]
    simp [Client.start]
  · intro h1 m1 h2 m2
    rw [hall h1 m1, hall h2 m2]

theorem singleton_uniqueness_witness :
    wellFormed 0 [Op.getInstance, Op.setValue 0 4 3, Op.getInstance, Op.printValue 1,
        Op.getInstance] = true ∧
    ∃ c, run (Client.start 7 { x := 0, y := 0 })
        [Op.getInstance, Op.setValue 0 4 3, Op.getInstance, Op.printValue 1,
          Op.getInstance] = some c ∧
      c.handles.length
        = [Op.getInstance, Op.setValue 0 4 3, Op.getInstance, Op.printValue 1,
            Op.getInstance].count Op.getInstance ∧
      (∀ h1 ∈ c.handles, ∀ h2 ∈ c.handles, h1 = h2) ∧
      (∀ h ∈ c.handles, h = 7) :=
  ⟨by decide, singleton_uniqueness 7 { x := 0, y := 0 } _ (by decide)⟩

/-- C2 (Singleton mutation visibility). After any history `before`, a
`setValue(a, b)` through any handle `i`, then any calls `mid` that are not `setValue`
(further `getInstance()` and `printValue()` calls), a `printValue()` through any handle
`j` obtained so far (before or after the `setValue`) succeeds and appends exactly the
text of `a`, one space, the text of `b` and a newline to standard output. -/
theorem singleton_mutation_visibility (addr : Handle) (mem : Singleton)
    (before mid : List Op) (i j : Nat) (a b : Int)
    (hwf : wellFormed 0 ((before ++ Op.setValue i a b :: mid) ++ [Op.printValue j]) = true)
    (hmid : ∀ op ∈ mid, op.isSetValue = false) :
    ∃ c2 c3, run (Client.start addr mem) (before ++ Op.setValue i a b :: mid) = some c2 ∧
      step c2 (Op.printValue j) = some c3 ∧
      c3.proc.out = c2.proc.out ++ (toString a ++ " " ++ toString b ++ "\n") := by
  rw [wellFormed_append, wellFormed_append] at hwf
  simp only [Bool.and_eq_true, wellFormed, decide_eq_true_eq, Nat.zero_add] at hwf
  obtain ⟨⟨hwf0, hi, hwfm⟩, hj, _⟩ := hwf
  obtain ⟨c0, hrun0, hinv0, _, hh0, _⟩ :=
    run_spec before (Client.start addr mem) (Inv_start addr mem) hwf0
  have hlen0 : c0.handles.length = before.count Op.getInstance := by
    rw [hh0]
    simp [Client.start]
  have hinv1 : Inv { c0 with proc := { c0.proc with inst := { x := a, y := b } } } := hinv0
  obtain ⟨c2, hrun2, hinv2, _, hh2, _, _, hinst2⟩ :=
    run_spec mid _ hinv1 (by simpa [hlen0] using hwfm)
  have hlen2 : c2.handles.length = (before ++ Op.setValue i a b :: mid).count Op.getInstance := by
    rw [hh2]
    simp [hlen0, List.count_cons]
  have hrun : run (Client.start addr mem) (before ++ Op.setValue i a b :: mid) = some c2 := by
    rw [run_append, hrun0]
    simp [run, step_setValue hinv0 (by rw [hlen0]; exact hi), hrun2]
  refine ⟨c2, _, hrun, step_printValue hinv2 (by rw [hlen2]; exact hj), ?_⟩
  rw [hinst2 hmid]

theorem singleton_mutation_visibility_witness :
    wellFormed 0 (([Op.getInstance, Op.setValue 0 9 9]
        ++ Op.setValue 0 4 (-3) :: [Op.getInstance, Op.printValue 0])
        ++ [Op.printValue 1]) = true ∧
    (∀ op ∈ [Op.getInstance, Op.printValue 0], op.isSetValue = false) ∧
    ∃ c2 c3, run (Client.start 7 { x := 0, y := 0 })
        ([Op.getInstance, Op.setValue 0 9 9]
          ++ Op.setValue 0 4 (-3) :: [Op.getInstance, Op.printValue 0]) = some c2 ∧
      step c2 (Op.printValue 1) = some c3 ∧
      c3.proc.out = c2.proc.out ++ (toString (4 : Int) ++ " " ++ toString (-3 : Int) ++ "\n") :=
  ⟨by decide, by decide,
    singleton_mutation_visibility 7 { x := 0, y := 0 } [Op.getInstance, Op.setValue 0 9 9]
      [Op.getInstance, Op.printValue 0] 0 1 4 (-3) (by decide) (by decide)⟩

/-- C3 (Singleton end-to-end scenario). On a fresh process, `main` returns exit code 0
and has written exactly four newline-terminated lines: `4 3`, `1 2`, and twice the
same token, the text of the address of the one instance. -/
theorem singleton_main (fmtPtr : Handle → String) (addr : Handle) (mem : Singleton) :
    ∃ p, main fmtPtr (Proc.start addr mem) = some (0, p) ∧
      p.out = String.join
        (List.map (fun l => l ++ "\n") ["4 3", "1 2", fmtPtr addr, fmtPtr addr]) := by
  have h4 : toString (4 : Int) = "4" := by decide
  have h3 : toString (3 : Int) = "3" := by decide
  have h1 : toString (1 : Int) = "1" := by decide
  have h2 : toString (2 : Int) = "2" := by decide
  refine ⟨{ addr := addr, constructed := true, inst := { x := 1, y := 2 }, constructions := 1,
            out := ((("" ++ ("4" ++ " " ++ "3" ++ "\n") ++ ("1" ++ " " ++ "2" ++ "\n")
              ++ fmtPtr addr).push '\n') ++ fmtPtr addr).push '\n' },
    ?_, main_out_eq (fmtPtr addr)⟩
  simp [main, Proc.start, Singleton.getInstance, callSetValue, callPrintValue, Proc.deref,
    Singleton.printValue_eq, Singleton.setValue, h4, h3, h1, h2]

/-- C7 (Lazy exactly-once initialization). Split any well-formed run on a fresh process
into a part `pre` and a part `post`. The holder starts Uninitialized; after `pre` it is
Initialized exactly when `pre` contains a `getInstance()` call, and the constructor has
then run exactly once (not at all otherwise). Over `post` the holder never goes back to
Uninitialized, and the constructor runs once more only if the holder was still
Uninitialized and `post` contains a `getInstance()` call: only the first
`getInstance()` constructs, and nothing constructs a second instance. -/
theorem singleton_lazy_exactly_once (addr : Handle) (mem : Singleton) (pre post : List Op)
    (hwf : wellFormed 0 (pre ++ post) = true) :
    (Client.start addr mem).proc.constructed = false ∧
    (Client.start addr mem).proc.constructions = 0 ∧
    ∃ c1 c2, run (Client.start addr mem) pre = some c1 ∧ run c1 post = some c2 ∧
      c1.proc.constructed = decide (Op.getInstance ∈ pre) ∧
      c1.proc.constructions = (if Op.getInstance ∈ pre then 1 else 0) ∧
      c2.proc.constructed = (c1.proc.constructed || decide (Op.getInstance ∈ post)) ∧
      c2.proc.constructions
        = c1.proc.constructions
          + (if c1.proc.constructed = false ∧ Op.getInstance ∈ post then 1 else 0) ∧
      c2.proc.constructions = (if Op.getInstance ∈ pre ++ post then 1 else 0) := by
  rw [wellFormed_append] at hwf
  simp only [Bool.and_eq_true, Nat.zero_add] at hwf
  obtain ⟨hwf1, hwf2⟩ := hwf
  obtain ⟨c1, hrun1, hinv1, _, hh1, hcon1, hcnt1, _⟩ :=
    run_spec pre (Client.start addr mem) (Inv_start addr mem) hwf1
  have hlen1 : c1.handles.length = pre.count Op.getInstance := by
    rw [hh1]
    simp [Client.start]
  obtain ⟨c2, hrun2, _, _, _, hcon2, hcnt2, _⟩ :=
    run_spec post c1 hinv1 (by rw [hlen1]; exact hwf2)
  have hcon1a : c1.proc.constructed = decide (Op.getInstance ∈ pre) := by
    simpa [Client.start, Proc.start] using hcon1
  have hcnt1a : c1.proc.constructions = (if Op.getInstance ∈ pre then 1 else 0) := by
    simpa [Client.start, Proc.start] using hcnt1
  refine ⟨rfl, rfl, c1, c2, hrun1, hrun2, hcon1a, hcnt1a, hcon2, hcnt2, ?_⟩
  rw [hcnt2, hcnt1a, hcon1a]
  by_cases h1 : Op.getInstance ∈ pre <;> by_cases h2 : Op.getInstance ∈ post <;>
    simp [h1, h2]

theorem singleton_lazy_exactly_once_witness :
    wellFormed 0 ([Op.getInstance, Op.setValue 0 4 3]
        ++ [Op.getInstance, Op.printValue 1]) = true ∧
    (Client.start 7 { x := 0, y := 0 }).proc.constructed = false ∧
    (Client.start 7 { x := 0, y := 0 }).proc.constructions = 0 ∧
    ∃ c1 c2, run (Client.start 7 { x := 0, y := 0 }) [Op.getInstance, Op.setValue 0 4 3]
        = some c1 ∧
      run c1 [Op.getInstance, Op.printValue 1] = some c2 ∧
      c1.proc.constructed = decide (Op.getInstance ∈ [Op.getInstance, Op.setValue 0 4 3]) ∧
      c1.proc.constructions
        = (if Op.getInstance ∈ [Op.getInstance, Op.setValue 0 4 3] then 1 else 0) ∧
      c2.proc.constructed
        = (c1.proc.constructed || decide (Op.getInstance ∈ [Op.getInstance, Op.printValue 1])) ∧
      c2.proc.constructions
        = c1.proc.constructions
          + (if c1.proc.constructed = false
              ∧ Op.getInstance ∈ [Op.getInstance, Op.printValue 1] then 1 else 0) ∧
      c2.proc.constructions
        = (if Op.getInstance ∈ [Op.getInstance, Op.setValue 0 4 3]
            ++ [Op.getInstance, Op.printValue 1] then 1 else 0) :=
  ⟨by decide,
    singleton_lazy_exactly_once 7 { x := 0, y := 0 } [Op.getInstance, Op.setValue 0 4 3]
      [Op.getInstance, Op.printValue 1] (by decide)⟩

/-- C8 (Initial field values). The constructor assigns neither field. On a fresh
process whose storage for the instance holds `mem`, after the first `getInstance()`
and any further calls that are not `setValue` (later `getInstance()` and `printValue()`
calls), the constructor has run exactly once, the fields are still exactly `mem`,
one more `getInstance()` returns the same handle and changes nothing at all, and a
`printValue()` prints the two values of `mem`: values the program never set. -/
theorem singleton_initial_fields (addr : Handle) (mem : Singleton) (ops : List Op)
    (hwf : wellFormed 0 (Op.getInstance :: ops) = true)
    (hno : ∀ op ∈ ops, op.isSetValue = false) :
    Singleton.defaultCtor mem = mem ∧
    ∃ c, run (Client.start addr mem) (Op.getInstance :: ops) = some c ∧
      c.proc.constructions = 1 ∧
      c.proc.inst = mem ∧
      Singleton.getInstance c.proc = (addr, c.proc) ∧
      ∃ c1, step c (Op.printValue 0) = some c1 ∧
        c1.proc.out = c.proc.out ++ (toString mem.x ++ " " ++ toString mem.y ++ "\n") := by
  obtain ⟨c, hrun, hinv, haddr, hh, hcon, hcnt, hinst⟩ :=
    run_spec (Op.getInstance :: ops) (Client.start addr mem) (Inv_start addr mem) hwf
  have hno1 : ∀ op ∈ Op.getInstance :: ops, op.isSetValue = false := by
    intro op hop
    rcases List.mem_cons.mp hop with h | h
    · rw [h]; rfl
    · exact hno op h
  have hinst1 : c.proc.inst = mem := hinst hno1
  have hcon1 : c.proc.constructed = true := by
    simpa [Client.start, Proc.start] using hcon
  have haddr1 : c.proc.addr = addr := haddr
  have hlen : 0 < c.handles.length := by
    rw [hh]
    simp [Client.start]
  refine ⟨rfl, c, hrun, ?_, hinst1, ?_, _, step_printValue hinv hlen, ?_⟩
  · simpa [Client.start, Proc.start] using hcnt
  · rw [Singleton.getInstance_of_constructed _ hcon1, haddr1]
  · rw [hinst1]

theorem singleton_initial_fields_witness :
    wellFormed 0 (Op.getInstance :: [Op.printValue 0, Op.getInstance]) = true ∧
    (∀ op ∈ [Op.printValue 0, Op.getInstance], op.isSetValue = false) ∧
    Singleton.defaultCtor { x := 5, y := -6 } = { x := 5, y := -6 } ∧
    ∃ c, run (Client.start 7 { x := 5, y := -6 })
        (Op.getInstance :: [Op.printValue 0, Op.getInstance]) = some c ∧
      c.proc.constructions = 1 ∧
      c.proc.inst = { x := 5, y := -6 } ∧
      Singleton.getInstance c.proc = (7, c.proc) ∧
      ∃ c1, step c (Op.printValue 0) = some c1 ∧
        c1.proc.out = c.proc.out
          ++ (toString (5 : Int) ++ " " ++ toString (-6 : Int) ++ "\n") :=
  ⟨by decide, by decide,
    singleton_initial_fields 7 { x := 5, y := -6 } [Op.printValue 0, Op.getInstance]
      (by decide) (by decide)⟩

end SingletonProgram

namespace FactoryProgram

/-! ## Lemmas on `factory_method.cpp` -/

theorem callDeliver_new (w : World) (obj : Transport) :
    callDeliver (w.new obj).1 (w.new obj).2
      = some { heap := w.heap ++ [obj], out := obj.deliver w.out } := by
  simp [callDeliver, World.new, List.getElem?_concat_length]

/-- Every pointer a client holds points to a `Ship`. -/
theorem PtrsOk_getInstance {c : Client} (hc : PtrsOk c) :
    PtrsOk { world := (ShipFactory.getInstance c.world).2,
             ptrs := c.ptrs ++ [(ShipFactory.getInstance c.world).1] } := by
  intro p hp
  simp only [List.mem_append, List.mem_singleton] at hp
  rcases hp with hp | hp
  · have h1 := hc p hp
    have hlt : p < c.world.heap.length := by
      rcases List.getElem?_eq_some.mp h1 with ⟨h, _⟩
      exact h
    show (c.world.heap ++ [Ship])[p]? = some Ship
    rw [List.getElem?_append_left hlt]
    exact h1
  · rw [hp]
    show (c.world.heap ++ [Ship])[c.world.heap.length]? = some Ship
    exact List.getElem?_concat_length _ _

theorem factory_step_getInstance (c : Client) :
    step c Op.getInstance
      = some { world := (ShipFactory.getInstance c.world).2,
               ptrs := c.ptrs ++ [(ShipFactory.getInstance c.world).1] } := rfl

theorem factory_step_deliver {c : Client} (hc : PtrsOk c) {i : Nat} (hi : i < c.ptrs.length) :
    step c (Op.deliver i)
      = some { c with world := { c.world with out := c.world.out ++ "delivering using ship" } } := by
  have hg : c.ptrs[i]? = some c.ptrs[i] := List.getElem?_eq_getElem hi
  have hp : c.world.heap[c.ptrs[i]]? = some Ship := hc _ (List.getElem?_mem hg)
  simp [step, hg, callDeliver, hp, Ship]

theorem join_replicate_succ (n : Nat) (s t : String) :
    s ++ t ++ String.join (List.replicate n t) = s ++ String.join (List.replicate (n + 1) t) := by
  apply String.ext
  simp [String.data_append, String.data_join, List.replicate_succ]

/-- What a well-formed call sequence does to a client whose pointers all point to
`Ship` objects: it runs to the end, having written one copy of the text for each
`deliver` call and nothing else. -/
theorem factory_run_spec (ops : List Op) :
    ∀ c : Client, PtrsOk c → wellFormed c.ptrs.length ops = true →
      ∃ c1, run c ops = some c1 ∧ PtrsOk c1 ∧
        c1.ptrs.length = c.ptrs.length + ops.count Op.getInstance ∧
        c1.world.heap = c.world.heap ++ List.replicate (ops.count Op.getInstance) Ship ∧
        c1.world.out = c.world.out
          ++ String.join (List.replicate (ops.countP Op.isDeliver) "delivering using ship") := by
  induction ops with
  | nil =>
    intro c hc _
    refine ⟨c, rfl, hc, rfl, by simp, ?_⟩
    apply String.ext
    simp [String.join]
  | cons op ops ih =>
    intro c hc hwf
    cases op with
    | getInstance =>
      have hwf1 : wellFormed (c.ptrs.length + 1) ops = true := by
        simpa [wellFormed] using hwf
      obtain ⟨c1, hrun, hok, hlen, hheap, hout⟩ :=
        ih _ (PtrsOk_getInstance hc) (by simpa using hwf1)
      refine ⟨c1, ?_, hok, ?_, ?_, ?_⟩
      · simp [run, factory_step_getInstance, hrun]
      · rw [hlen]
        simp
        omega
      · rw [hheap]
        simp [ShipFactory, World.new, List.replicate_succ]
      · rw [hout]
        simp [ShipFactory, World.new, List.countP_cons, Op.isDeliver]
    | deliver i =>
      have hwf1 : i < c.ptrs.length ∧ wellFormed c.ptrs.length ops = true := by
        simpa [wellFormed] using hwf
      have hok1 : PtrsOk
          { c with world := { c.world with out := c.world.out ++ "delivering using ship" } } := hc
      obtain ⟨c1, hrun, hok, hlen, hheap, hout⟩ := ih _ hok1 hwf1.2
      refine ⟨c1, ?_, hok, ?_, ?_, ?_⟩
      · simp [run, factory_step_deliver hc hwf1.1, hrun]
      · simpa [List.count_cons] using hlen
      · simpa [List.count_cons] using hheap
      · rw [hout]
        simp only [List.countP_cons, Op.isDeliver, if_true]
        exact join_replicate_succ _ _ _

/-- Only well-formed call sequences run to the end: well-formedness excludes no run. -/
theorem factory_wellFormed_of_run (ops : List Op) :
    ∀ c c1 : Client, run c ops = some c1 → wellFormed c.ptrs.length ops = true := by
  induction ops with
  | nil => intro c c1 _; rfl
  | cons op ops ih =>
    intro c c1 h
    simp only [run] at h
    cases hs : step c op with
    | none => simp [hs] at h
    | some c2 =>
      rw [hs] at h
      have h2 := ih c2 c1 h
      cases op with
      | getInstance =>
        rw [factory_step_getInstance] at hs
        cases hs
        simpa [wellFormed] using h2
      | deliver i =>
        cases hg : c.ptrs[i]? with
        | none => simp [step, hg] at hs
        | some hd =>
          have hi : i < c.ptrs.length := (List.getElem?_eq_some.mp hg).1
          simp only [step, hg, Option.map_eq_some'] at hs
          obtain ⟨p, _, hp⟩ := hs
          subst hp
          simpa [wellFormed, hi] using h2

theorem PtrsOk_start (w : World) : PtrsOk (Client.start w) := by
  intro p hp
  simp [Client.start] at hp

theorem wellFormed_oneShip (n : Nat) : wellFormed 0 (oneShip n) = true := by
  have h : ∀ n : Nat, wellFormed 1 (List.replicate n (Op.deliver 0)) = true := by
    intro n
    induction n with
    | zero => rfl
    | succ n ih => simp [List.replicate_succ, wellFormed, ih]
  simpa [oneShip, wellFormed] using h n

theorem countP_oneShip (n : Nat) : (oneShip n).countP Op.isDeliver = n := by
  have h : ∀ n : Nat, (List.replicate n (Op.deliver 0)).countP Op.isDeliver = n := by
    intro n
    induction n with
    | zero => rfl
    | succ n ih => simp [List.replicate_succ, List.countP_cons, Op.isDeliver, ih]
  simp [oneShip, List.countP_cons, Op.isDeliver, h n]

theorem wellFormed_shipsFrom (n : Nat) : ∀ k : Nat, wellFormed k (shipsFrom k n) = true := by
  induction n with
  | zero => intro k; rfl
  | succ n ih => intro k; simp [shipsFrom, wellFormed, ih]

theorem countP_shipsFrom (n : Nat) : ∀ k : Nat, (shipsFrom k n).countP Op.isDeliver = n := by
  induction n with
  | zero => intro k; rfl
  | succ n ih => intro k; simp [shipsFrom, List.countP_cons, Op.isDeliver, ih]

/-! ## The claims on `factory_method.cpp` -/

/-- C4 (Factory output determinism). `deliver` of a `Ship` appends exactly the text
`delivering using ship` to standard output, whatever was written before; called through
a pointer to a `Ship` in any store (any number of `Ship` and other objects), it
succeeds, appends exactly that text and leaves the store as it was. -/
theorem ship_deliver_output (w : World) (p : Ptr) (hp : w.heap[p]? = some Ship) :
    Ship.deliver w.out = w.out ++ "delivering using ship" ∧
    callDeliver p w = some { heap := w.heap, out := w.out ++ "delivering using ship" } := by
  refine ⟨rfl, ?_⟩
  simp [callDeliver, hp, Ship]

theorem ship_deliver_output_witness :
    ({ heap := [Ship, Ship, Ship], out := "abc" } : World).heap[1]? = some Ship ∧
    Ship.deliver ({ heap := [Ship, Ship, Ship], out := "abc" } : World).out
      = ({ heap := [Ship, Ship, Ship], out := "abc" } : World).out ++ "delivering using ship" ∧
    callDeliver 1 { heap := [Ship, Ship, Ship], out := "abc" }
      = some { heap := ({ heap := [Ship, Ship, Ship], out := "abc" } : World).heap,
               out := ({ heap := [Ship, Ship, Ship], out := "abc" } : World).out
                 ++ "delivering using ship" } :=
  ⟨rfl, ship_deliver_output { heap := [Ship, Ship, Ship], out := "abc" } 1 rfl⟩

/-- C5 (Factory substitutability). Let the creator `C` produce the product `P`
(`C.getInstance` is `return new P();`). In any state, `C.getInstance()` returns a
pointer to a valid `P`, and `deliver` through it does exactly what `P.deliver` does.
In particular `ShipFactory.getInstance()` returns a pointer to a valid `Ship`, and
`deliver` through it does what `Ship.deliver` does: it appends `delivering using ship`.
This also holds with a second pair present: after `C` has produced a `P`, the pointer
from `ShipFactory` still delivers as a `Ship`, and the pointer from `C` still delivers
as a `P`. -/
theorem factory_substitutability (C : TransportFactory) (P : Transport)
    (hC : ∀ w, C.getInstance w = w.new P) (w : World) :
    (C.getInstance w).2.heap[(C.getInstance w).1]? = some P ∧
    callDeliver (C.getInstance w).1 (C.getInstance w).2
      = some { heap := w.heap ++ [P], out := P.deliver w.out } ∧
    (ShipFactory.getInstance w).2.heap[(ShipFactory.getInstance w).1]? = some Ship ∧
    callDeliver (ShipFactory.getInstance w).1 (ShipFactory.getInstance w).2
      = some { heap := w.heap ++ [Ship], out := Ship.deliver w.out } ∧
    Ship.deliver w.out = w.out ++ "delivering using ship" ∧
    callDeliver (ShipFactory.getInstance (C.getInstance w).2).1
        (ShipFactory.getInstance (C.getInstance w).2).2
      = some { heap := w.heap ++ [P, Ship], out := w.out ++ "delivering using ship" } ∧
    callDeliver (C.getInstance w).1 (ShipFactory.getInstance (C.getInstance w).2).2
      = some { heap := w.heap ++ [P, Ship], out := P.deliver w.out } := by
  refine ⟨?_, ?_, ?_, ?_, rfl, ?_, ?_⟩
  · rw [hC]
    exact List.getElem?_concat_length _ _
  · rw [hC]
    exact callDeliver_new w P
  · exact List.getElem?_concat_length _ _
  · exact callDeliver_new w Ship
  · rw [hC]
    have h := callDeliver_new (w.new P).2 Ship
    simpa [ShipFactory, World.new, Ship] using h
  · rw [hC]
    have hlt : w.heap.length < (w.heap ++ [P]).length := by simp
    have h1 : (w.heap ++ [P] ++ [Ship])[w.heap.length]? = some P := by
      rw [List.getElem?_append_left hlt]
      exact List.getElem?_concat_length _ _
    show (match (w.heap ++ [P] ++ [Ship])[w.heap.length]? with
      | some obj => some (World.mk (w.heap ++ [P] ++ [Ship]) (obj.deliver w.out))
      | none => none) = _
    rw [h1]
    simp

theorem factory_substitutability_witness :
    (∀ w, (TransportFactory.mk fun w => w.new (Transport.mk fun out => out ++ "dummy")).getInstance w = w.new (Transport.mk fun out => out ++ "dummy")) ∧
    ((TransportFactory.mk fun w => w.new (Transport.mk fun out => out ++ "dummy")).getInstance (World.mk [Ship] "abc")).2.heap[((TransportFactory.mk fun w => w.new (Transport.mk fun out => out ++ "dummy")).getInstance (World.mk [Ship] "abc")).1]? = some (Transport.mk fun out => out ++ "dummy") ∧
    callDeliver ((TransportFactory.mk fun w => w.new (Transport.mk fun out => out ++ "dummy")).getInstance (World.mk [Ship] "abc")).1 ((TransportFactory.mk fun w => w.new (Transport.mk fun out => out ++ "dummy")).getInstance (World.mk [Ship] "abc")).2
      = some { heap := (World.mk [Ship] "abc").heap ++ [(Transport.mk fun out => out ++ "dummy")], out := (Transport.mk fun out => out ++ "dummy").deliver (World.mk [Ship] "abc").out } ∧
    (ShipFactory.getInstance (World.mk [Ship] "abc")).2.heap[(ShipFactory.getInstance (World.mk [Ship] "abc")).1]? = some Ship ∧
    callDeliver (ShipFactory.getInstance (World.mk [Ship] "abc")).1 (ShipFactory.getInstance (World.mk [Ship] "abc")).2
      = some { heap := (World.mk [Ship] "abc").heap ++ [Ship], out := Ship.deliver (World.mk [Ship] "abc").out } ∧
    Ship.deliver (World.mk [Ship] "abc").out = (World.mk [Ship] "abc").out ++ "delivering using ship" ∧
    callDeliver (ShipFactory.getInstance ((TransportFactory.mk fun w => w.new (Transport.mk fun out => out ++ "dummy")).getInstance (World.mk [Ship] "abc")).2).1
        (ShipFactory.getInstance ((TransportFactory.mk fun w => w.new (Transport.mk fun out => out ++ "dummy")).getInstance (World.mk [Ship] "abc")).2).2
      = some { heap := (World.mk [Ship] "abc").heap ++ [(Transport.mk fun out => out ++ "dummy"), Ship], out := (World.mk [Ship] "abc").out ++ "delivering using ship" } ∧
    callDeliver ((TransportFactory.mk fun w => w.new (Transport.mk fun out => out ++ "dummy")).getInstance (World.mk [Ship] "abc")).1 (ShipFactory.getInstance ((TransportFactory.mk fun w => w.new (Transport.mk fun out => out ++ "dummy")).getInstance (World.mk [Ship] "abc")).2).2
      = some { heap := (World.mk [Ship] "abc").heap ++ [(Transport.mk fun out => out ++ "dummy"), Ship], out := (Transport.mk fun out => out ++ "dummy").deliver (World.mk [Ship] "abc").out } :=
  ⟨fun _ => rfl,
    factory_substitutability (TransportFactory.mk fun w => w.new (Transport.mk fun out => out ++ "dummy")) (Transport.mk fun out => out ++ "dummy") (fun _ => rfl) (World.mk [Ship] "abc")⟩

/-- C6 (Factory end-to-end scenario). From any state `main` returns exit code 0, having
allocated one `Ship` and appended `delivering using ship`; on a fresh process the
whole output is exactly `delivering using ship`, with no newline. -/
theorem factory_main :
    (∀ w : World, main w
      = some (0, { heap := w.heap ++ [Ship], out := w.out ++ "delivering using ship" })) ∧
    main World.start = some (0, { heap := [Ship], out := "delivering using ship" }) := by
  have h : ∀ w : World, main w
      = some (0, { heap := w.heap ++ [Ship], out := w.out ++ "delivering using ship" }) := by
    intro w
    have h1 := callDeliver_new w Ship
    simp only [main, ShipFactory]
    rw [h1]
    rfl
  exact ⟨h, h World.start⟩

/-- C10 (Factory statelessness). Every well-formed sequence of `getInstance()` and
`deliver()` calls, from any state, runs to the end and has written exactly one copy of
`delivering using ship` for each `deliver()` call, in a row; one more `deliver()`
through any pointer obtained appends exactly one more copy, whatever came before. In
particular `n` calls on one `Ship`, and one call on each of `n` `Ship`s obtained from
`n` `getInstance()` calls, both write exactly `n` copies. -/
theorem factory_stateless (w : World) (ops : List Op) (n : Nat)
    (hwf : wellFormed 0 ops = true) :
    (∃ c, run (Client.start w) ops = some c ∧
      c.world.out = w.out
        ++ String.join (List.replicate (ops.countP Op.isDeliver) "delivering using ship") ∧
      ∀ i, i < c.ptrs.length →
        ∃ c1, step c (Op.deliver i) = some c1 ∧
          c1.world.out = c.world.out ++ "delivering using ship") ∧
    (∃ c, run (Client.start w) (oneShip n) = some c ∧
      c.world.out = w.out ++ String.join (List.replicate n "delivering using ship")) ∧
    (∃ c, run (Client.start w) (shipsFrom 0 n) = some c ∧
      c.world.out = w.out ++ String.join (List.replicate n "delivering using ship")) := by
  refine ⟨?_, ?_, ?_⟩
  · obtain ⟨c, hrun, hok, _, _, hout⟩ := factory_run_spec ops (Client.start w) (PtrsOk_start w) hwf
    exact ⟨c, hrun, hout, fun i hi => ⟨_, factory_step_deliver hok hi, rfl⟩⟩
  · obtain ⟨c, hrun, _, _, _, hout⟩ :=
      factory_run_spec (oneShip n) (Client.start w) (PtrsOk_start w) (wellFormed_oneShip n)
    rw [countP_oneShip] at hout
    exact ⟨c, hrun, hout⟩
  · obtain ⟨c, hrun, _, _, _, hout⟩ :=
      factory_run_spec (shipsFrom 0 n) (Client.start w) (PtrsOk_start w) (wellFormed_shipsFrom n 0)
    rw [countP_shipsFrom] at hout
    exact ⟨c, hrun, hout⟩

theorem factory_stateless_witness :
    wellFormed 0 [Op.getInstance, Op.deliver 0, Op.getInstance, Op.deliver 1, Op.deliver 0] = true ∧
    (∃ c, run (Client.start World.start) [Op.getInstance, Op.deliver 0, Op.getInstance, Op.deliver 1, Op.deliver 0] = some c ∧
      c.world.out = World.start.out
        ++ String.join (List.replicate ([Op.getInstance, Op.deliver 0, Op.getInstance, Op.deliver 1, Op.deliver 0].countP Op.isDeliver) "delivering using ship") ∧
      ∀ i, i < c.ptrs.length →
        ∃ c1, step c (Op.deliver i) = some c1 ∧
          c1.world.out = c.world.out ++ "delivering using ship") ∧
    (∃ c, run (Client.start World.start) (oneShip 2) = some c ∧
      c.world.out = World.start.out ++ String.join (List.replicate 2 "delivering using ship")) ∧
    (∃ c, run (Client.start World.start) (shipsFrom 0 2) = some c ∧
      c.world.out = World.start.out ++ String.join (List.replicate 2 "delivering using ship")) :=
  ⟨by decide, factory_stateless World.start [Op.getInstance, Op.deliver 0, Op.getInstance, Op.deliver 1, Op.deliver 0] 2 (by decide)⟩

end FactoryProgram
